import Mathlib

/-!
Shallow embedding of `src/crawler.py` (a GitHub GraphQL repository crawler).

The crawler has three parts:

* `fetch_repos_for_query` — a page-fetch loop for one search chunk.  The
  remote source is modelled as a finite list of `Outcome`s, one per HTTP
  attempt: either a transport failure (`requests.RequestException`, which the
  code answers with a 15 second sleep and a retry of the identical request)
  or a successful HTTP response carrying a parsed JSON body (`Response`).
  The loop state is the Python locals: `repos_dict`, `has_next_page`,
  `after_cursor`, plus a flag recording whether the local variable
  `remaining` has been assigned yet (it is only assigned at the end of a
  full loop iteration, and the final progress print reads it, raising
  `NameError` when no iteration completed).
* the `__main__` block — date-window chunk generation, the merge of chunk
  dictionaries into a global accumulator with an early break at
  `TARGET_COUNT`, and the final truncation.
* `store_in_db` — a bulk UPSERT into PostgreSQL, modelled as a pure
  transformation of a keyed table, with `execute_values`'s 500-row
  sub-batches executed inside one transaction that commits once at the end;
  a `psycopg2.Error` at some sub-batch is modelled by an optional failing
  batch index, and the rollback-on-close discards the uncommitted state.

Python `dict`s are modelled as association lists in insertion order:
assigning to an existing key replaces the value in place (keeping the key's
original position, as CPython does), while a new key is appended at the end.
`dict.values()` is the ordered list of values.

Conventions: dates are integer day numbers; a `FetchEnd` of `.exc` marks an
execution in which the Python function raises an uncaught exception
(`KeyError` on a missing `data`/`search`/`pageInfo` container, or the final
print's `NameError`) — on that path the function returns nothing to its
caller and the run aborts; the `repos` field of the result is then only the
internal dictionary at the moment of the raise.  `.outOfPages` marks a run
of the model in which the outcome list was exhausted while the loop still
wanted another page; the real loop would issue a further request there, so
run-level functions treat it as outside the modelled behaviour.  The
`slept` field counts the seconds of backoff sleeping performed from the
given point on (15 per transport failure).
-/

/-- Association-list model of a Python `dict`: key-value pairs in insertion
order, without duplicate keys when built from `dictInsert`. -/
abbrev PyDict (K V : Type) := List (K × V)

/-- Python `d[k] = v`: replace in place if `k` is present (keeping its
position), else append at the end. -/
def dictInsert {K V : Type} [DecidableEq K] : PyDict K V → K → V → PyDict K V
  | [], k, v => [(k, v)]
  | (a, b) :: t, k, v => if a = k then (k, v) :: t else (a, b) :: dictInsert t k v

/-- Python `d.get(k)` / `d[k]`: first binding of `k`. -/
def dictLookup {K V : Type} [DecidableEq K] : PyDict K V → K → Option V
  | [], _ => none
  | (a, b) :: t, k => if a = k then some b else dictLookup t k

/-- Python `d.update(other)`: assign every binding of `other` into `d`,
left to right. -/
def dictUpdate {K V : Type} [DecidableEq K] (d other : PyDict K V) : PyDict K V :=
  other.foldl (fun acc kv => dictInsert acc kv.1 kv.2) d

/-- Python `list(d.values())`. -/
def dictValues {K V : Type} (d : PyDict K V) : List V := d.map Prod.snd

/-- Python `list(d.keys())`. -/
def dictKeys {K V : Type} (d : PyDict K V) : List K := d.map Prod.fst

/-- Python `len(d)`. -/
def dictSize {K V : Type} (d : PyDict K V) : Nat := d.length

/-- One JSON result node, as the fetch loop inspects it.  A node that is
JSON `null` (or a falsy empty object) is modelled as `none` at the list
level; `id`, `nameWithOwner` and `stargazerCount` are each present or
absent. -/
structure NodeData where
  id : Option String
  nameWithOwner : Option String
  stargazerCount : Option Int
deriving DecidableEq

/-- The `pageInfo` object of a search response. -/
structure PageInfo where
  hasNextPage : Bool
  endCursor : Option String
deriving DecidableEq

/-- The `data.search` object: `nodes` is read with `.get('nodes', [])`
(absent means the empty default), `pageInfo` with `['pageInfo']` (absent
means `KeyError`). -/
structure SearchPart where
  nodes : Option (List (Option NodeData))
  pageInfo : Option PageInfo
deriving DecidableEq

/-- A parsed JSON response body.  `errors` is the optional top-level error
list (`'errors' in data`); `search` is `data['data']['search']`, where
`none` models any missing `data`/`search` container (a `KeyError` /
`TypeError` when accessed). -/
structure Response where
  errors : Option (List String)
  search : Option SearchPart
deriving DecidableEq

/-- One HTTP attempt as seen by the fetch loop: a transport failure
(`requests.RequestException`, including timeouts and non-2xx statuses via
`raise_for_status`) or a successful response body. -/
inductive Outcome
  | transient
  | ok (r : Response)
deriving DecidableEq

/-- How an execution of `fetch_repos_for_query` ends: a normal return, an
uncaught exception, or exhaustion of the modelled outcome list while the
loop still wanted a page. -/
inductive FetchEnd
  | finished
  | exc
  | outOfPages
deriving DecidableEq

/-- A row as the crawler builds it: `(id, nameWithOwner, stargazerCount)`. -/
abbrev Row := String × Option String × Option Int

/-- The `repos_dict` of the fetch loop. -/
abbrev RepoDict := PyDict String Row

/-- Result of a modelled execution of `fetch_repos_for_query`. -/
structure FetchResult where
  repos : RepoDict
  fin : FetchEnd
  slept : Nat
deriving DecidableEq

/-- The body of `for repo_node in new_nodes`: skip falsy nodes and nodes
without an `'id'` key, otherwise assign
`repos_dict[repo_id] = (repo_id, nameWithOwner, stargazerCount)`. -/
def addNode (acc : RepoDict) (n : Option NodeData) : RepoDict :=
  match n with
  | some node =>
    match node.id with
    | some repoId => dictInsert acc repoId (repoId, node.nameWithOwner, node.stargazerCount)
    | none => acc
  | none => acc

/-- The `for repo_node in new_nodes` loop over one page's node list. -/
def addNodes (d : RepoDict) (nodes : List (Option NodeData)) : RepoDict :=
  nodes.foldl addNode d

/-- Number of result nodes a response would contribute to the loop body
(`0` when the `data`/`search` container is missing). -/
def nodeCount (r : Response) : Nat :=
  match r.search with
  | some sp => (sp.nodes.getD []).length
  | none => 0

/-- Leaving the `while` loop normally runs the final progress print, which
reads the local `remaining`: a normal return when it was assigned, a
`NameError` (modelled as `.exc`) when no loop iteration completed. -/
def loopExit (repos : RepoDict) (remainingSet : Bool) : FetchResult :=
  ⟨repos, if remainingSet then FetchEnd.finished else FetchEnd.exc, 0⟩

/-- The `while has_next_page and len(repos_dict) < limit_per_query` loop of
`fetch_repos_for_query`, one model step per HTTP attempt.  The loop guard
is re-checked before consuming each outcome; `remainingSet` records whether
the local `remaining` has been assigned (it is assigned exactly at the end
of a full iteration). -/
def fetchGo (limit : Nat) :
    List Outcome → RepoDict → Bool → Option String → Bool → FetchResult
  | [], repos, hasNext, _, remainingSet =>
    if hasNext = true ∧ dictSize repos < limit then ⟨repos, FetchEnd.outOfPages, 0⟩
    else loopExit repos remainingSet
  | Outcome.transient :: rest, repos, hasNext, cursor, remainingSet =>
    if hasNext = true ∧ dictSize repos < limit then
      let r := fetchGo limit rest repos hasNext cursor remainingSet
      ⟨r.repos, r.fin, 15 + r.slept⟩
    else loopExit repos remainingSet
  | Outcome.ok resp :: rest, repos, hasNext, _, remainingSet =>
    if hasNext = true ∧ dictSize repos < limit then
      if resp.errors.isSome then
        ⟨repos, if remainingSet then FetchEnd.finished else FetchEnd.exc, 0⟩
      else
        match resp.search with
        | none => ⟨repos, FetchEnd.exc, 0⟩
        | some sp =>
          let repos2 := addNodes repos (sp.nodes.getD [])
          match sp.pageInfo with
          | none => ⟨repos2, FetchEnd.exc, 0⟩
          | some pi => fetchGo limit rest repos2 pi.hasNextPage pi.endCursor true
    else loopExit repos remainingSet

/-- `fetch_repos_for_query(search_query, limit_per_query)`: run the page
loop from the initial Python locals `repos_dict = {}`,
`has_next_page = True`, `after_cursor = None`, `remaining` unassigned.  The
search-query string only selects which outcomes the remote source produces,
so the model takes the outcome list directly. -/
def fetch_repos_for_query (outs : List Outcome) (limit : Nat) : FetchResult :=
  fetchGo limit outs [] true none false

/-- The chunk-generation loop of the `__main__` block.  Dates are integer
day numbers; `timedelta(days=k)` is subtraction of `k`.  Each iteration
sets `end_date = start_date - 1`, then `start_date = end_date - 30`, and
appends the window `(start_date, end_date)` (the `created:START..END`
filter of the query string). -/
def chunkLoop : Nat → Int → List (Int × Int) → List (Int × Int)
  | 0, _, acc => acc
  | n + 1, startDate, acc =>
    let endDate := startDate - 1
    let newStart := endDate - 30
    chunkLoop n newStart (acc ++ [(newStart, endDate)])

/-- `query_chunks` of the `__main__` block: 120 date windows walking
backward from `today`. -/
def query_chunks (today : Int) : List (Int × Int) := chunkLoop 120 today []

/-- The `i`-th generated window (with a zero default out of range). -/
def windowAt (today : Int) (i : Nat) : Int × Int := (query_chunks today).getD i (0, 0)

/-- `TARGET_COUNT` of the `__main__` block. -/
def TARGET_COUNT : Nat := 100000

/-- The main harvesting loop: for each chunk the remote source yields one
outcome list; `all_repos_dict.update(chunk_dict)` merges the chunk result,
and the loop breaks once the accumulator reaches `target`.  A chunk whose
fetch raises (`.exc`) aborts the whole run (`none`); a chunk whose outcome
list is exhausted mid-loop (`.outOfPages`) leaves the run outside the
modelled behaviour, also `none`. -/
def mainState (target : Nat) : List (List Outcome) → RepoDict → Option RepoDict
  | [], acc => some acc
  | s :: rest, acc =>
    let r := fetch_repos_for_query s 1000
    match r.fin with
    | FetchEnd.exc => none
    | FetchEnd.outOfPages => none
    | FetchEnd.finished =>
      let acc2 := dictUpdate acc r.repos
      if target ≤ dictSize acc2 then some acc2 else mainState target rest acc2

/-- The global accumulator `all_repos_dict` at the end of the main loop. -/
def runAccum (streams : List (List Outcome)) (target : Nat) : Option RepoDict :=
  mainState target streams []

/-- `final_repos_list`: `list(all_repos_dict.values())`, trimmed to
`target` when it over-collected. -/
def truncateFinal (target : Nat) (acc : RepoDict) : List Row :=
  if target < (dictValues acc).length then (dictValues acc).take target else dictValues acc

/-- The list handed to `store_in_db` at the end of a run (when the run does
not abort). -/
def runFinal (streams : List (List Outcome)) (target : Nat) : Option (List Row) :=
  (runAccum streams target).map (truncateFinal target)

/-- A stored table row: `(name, stargazer_count, crawled_at)`, keyed by
`id` in the table dictionary. -/
abbrev DbVal := Option String × Option Int × Int

/-- The `github_data.repositories` table, keyed by `id`. -/
abbrev DB := PyDict String DbVal

/-- One row of the bulk `INSERT ... ON CONFLICT (id) DO UPDATE SET
stargazer_count = EXCLUDED.stargazer_count, crawled_at = NOW()`: a new `id`
inserts `(name, stargazer_count, now)`; an existing `id` keeps its stored
`name` and refreshes only `stargazer_count` and `crawled_at`. -/
def upsertRow (db : DB) (row : Row) (now : Int) : DB :=
  match dictLookup db row.1 with
  | some (n0, _, _) => dictInsert db row.1 (n0, row.2.2, now)
  | none => dictInsert db row.1 (row.2.1, row.2.2, now)

/-- Apply one sub-batch of rows in order. -/
def applyBatch (db : DB) (batch : List Row) (now : Int) : DB :=
  batch.foldl (fun d row => upsertRow d row now) db

/-- Apply a whole row list in order (the effect of a committed call). -/
def upsertAll (db : DB) (rows : List Row) (now : Int) : DB :=
  rows.foldl (fun d row => upsertRow d row now) db

/-- Worker for `toBatches`: structural fuel recursion (the fuel is the
list length, which strictly exceeds the length of `l.drop 500` whenever `l`
is nonempty). -/
def toBatchesGo : Nat → List Row → List (List Row)
  | _, [] => []
  | 0, _ :: _ => []
  | fuel + 1, r :: t => ((r :: t).take 500) :: toBatchesGo fuel ((r :: t).drop 500)

/-- `execute_values(..., page_size=500)`: split the row list into 500-row
sub-batches. -/
def toBatches (l : List Row) : List (List Row) := toBatchesGo l.length l

/-- Execute the sub-batches sequentially against the transaction-local
(uncommitted) table state, starting at batch index `idx`.  A
`psycopg2.Error` raised while executing batch `failAt` stops execution with
the error flag; otherwise all batches apply and the flag stays clear. -/
def execValues (now : Int) (failAt : Option Nat) :
    DB → List (List Row) → Nat → DB × Bool
  | pending, [], _ => (pending, true)
  | pending, b :: rest, idx =>
    if failAt = some idx then (pending, false)
    else execValues now failAt (applyBatch pending b now) rest (idx + 1)

/-- `store_in_db(repositories)`: an empty list is an explicit no-op;
otherwise all 500-row sub-batches run inside one transaction and
`conn.commit()` publishes the pending state only when no `psycopg2.Error`
occurred — on an error the exception is caught, nothing is committed, and
closing the connection rolls the pending changes back.  `failAt` is the
index of the sub-batch at which the persistence layer fails, if any. -/
def store_in_db (db : DB) (repositories : List Row) (now : Int) (failAt : Option Nat) : DB :=
  if repositories.isEmpty then db
  else
    let batches := toBatches repositories
    let res := execValues now failAt db batches 0
    if res.2 then res.1 else db

/-- Key consistency of a repository dictionary: every stored value is a
triple whose first component is the key it is stored under (the fetch loop
stores `repos_dict[repo_id] = (repo_id, ...)`). -/
def KeyConsistent (d : RepoDict) : Prop := ∀ p ∈ d, (p.2).1 = p.1

/-- Fixture: a well-formed result node. -/
def mkNode (i : String) (nm : Option String) (st : Option Int) : Option NodeData :=
  some ⟨some i, nm, st⟩

/-- Fixture: a well-formed response page with the given nodes and page
info, carrying no top-level error list. -/
def mkPage (ns : List (Option NodeData)) (hasNext : Bool) (cur : Option String) : Response :=
  ⟨none, some ⟨some ns, some ⟨hasNext, cur⟩⟩⟩

/-- Fixture for the error-envelope scenario: page 1 is clean with two
nodes and more pages available; page 2 carries a top-level error list
alongside usable data with one valid node and a next page; page 3 is a
clean final page with one node. -/
def c1outs : List Outcome :=
  [Outcome.ok (mkPage [mkNode "a" (some "o/a") (some 1), mkNode "b" (some "o/b") (some 2)]
      true (some "cur1")),
   Outcome.ok ⟨some ["RATE_LIMITED"],
      some ⟨some [mkNode "c" (some "o/c") (some 3)], some ⟨true, some "cur2"⟩⟩⟩,
   Outcome.ok (mkPage [mkNode "d" (some "o/d") (some 4)] false none)]

/-- Fixture for the per-chunk-cap scenario with `limit_per_query = 2`:
page 1 has one unique node and more pages; page 2 has two new nodes. -/
def c2outs : List Outcome :=
  [Outcome.ok (mkPage [mkNode "a" (some "o/a") (some 1)] true (some "cur1")),
   Outcome.ok (mkPage [mkNode "b" (some "o/b") (some 2), mkNode "c" (some "o/c") (some 3)]
      false none)]

/-- Fixture for the missing-data scenario: a clean first page with more
pages available, then a response with neither an error list nor a usable
`data.search` container. -/
def c4outs : List Outcome :=
  [Outcome.ok (mkPage [mkNode "a" (some "o/a") (some 1)] true (some "cur1")),
   Outcome.ok ⟨none, none⟩]

/-- Fixture: a single-chunk source whose one page has one node. -/
def demoStreams : List (List Outcome) :=
  [[Outcome.ok (mkPage [mkNode "a" (some "o/a") (some 3)] false none)]]

/-- The accumulator produced by `demoStreams`. -/
def demoAcc : RepoDict := [("a", ("a", some "o/a", some 3))]

/-- Fixture: remaining outcomes after the retries in the transient-failure
scenario. -/
def c7rest : List Outcome :=
  [Outcome.ok (mkPage [mkNode "a" (some "o/a") (some 1)] false none)]

/-- Fixture rows for the persistence scenario. -/
def c8rows : List Row := [("a", some "o/a", some 1), ("b", some "o/b", some 2)]

/-- Fixture accumulator holding an earlier observation of identity `a` and
an identity `b` not present in the incoming chunk. -/
def c9acc : RepoDict := [("a", ("a", some "o/a", some 1)), ("b", ("b", some "o/b", some 2))]

/-- Fixture chunk holding a fresher observation of identity `a`. -/
def c9chunk : RepoDict := [("a", ("a", some "o/a", some 9))]

theorem dictLookup_insert {K V : Type} [DecidableEq K] (d : PyDict K V) (k : K) (v : V)
    (q : K) :
    dictLookup (dictInsert d k v) q = if k = q then some v else dictLookup d q := by
  induction d with
  | nil => simp [dictInsert, dictLookup]
  | cons p t ih =>
    obtain ⟨a, b⟩ := p
    by_cases hak : a = k
    · subst hak
      simp only [dictInsert, if_pos rfl, dictLookup]
      split <;> simp_all [dictLookup]
    · simp only [dictInsert, if_neg hak, dictLookup, ih]
      by_cases haq : a = q
      · subst haq
        simp [if_neg (Ne.symm hak)]
      · simp [haq]

theorem dictKeys_insert {K V : Type} [DecidableEq K] (d : PyDict K V) (k : K) (v : V) :
    dictKeys (dictInsert d k v) =
      if k ∈ dictKeys d then dictKeys d else dictKeys d ++ [k] := by
  induction d with
  | nil => simp [dictInsert, dictKeys]
  | cons p t ih =>
    obtain ⟨a, b⟩ := p
    by_cases hak : a = k
    · subst hak
      simp [dictInsert, dictKeys]
    · simp only [dictInsert, if_neg hak, dictKeys, List.map_cons] at ih ⊢
      rw [ih]
      by_cases hmem : k ∈ List.map Prod.fst t
      · simp [hmem, Ne.symm hak]
      · simp [hmem, Ne.symm hak]

theorem dictKeys_insert_nodup {K V : Type} [DecidableEq K] {d : PyDict K V}
    (h : (dictKeys d).Nodup) (k : K) (v : V) : (dictKeys (dictInsert d k v)).Nodup := by
  rw [dictKeys_insert]
  by_cases hmem : k ∈ dictKeys d
  · simpa [hmem]
  · simp only [hmem, if_false]
    simpa [List.nodup_append] using ⟨h, hmem⟩

theorem mem_dictInsert {K V : Type} [DecidableEq K] {d : PyDict K V} {k : K} {v : V}
    {p : K × V} (hp : p ∈ dictInsert d k v) : p = (k, v) ∨ p ∈ d := by
  induction d with
  | nil => simpa [dictInsert] using hp
  | cons q t ih =>
    obtain ⟨a, b⟩ := q
    by_cases hak : a = k
    · subst hak
      simp [dictInsert] at hp
      rcases hp with h | h
      · exact Or.inl (by simp [h])
      · exact Or.inr (List.mem_cons_of_mem _ h)
    · simp only [dictInsert, if_neg hak, List.mem_cons] at hp
      rcases hp with h | h
      · exact Or.inr (by simp [h])
      · rcases ih h with h2 | h2
        · exact Or.inl h2
        · exact Or.inr (List.mem_cons_of_mem _ h2)

theorem dictSize_insert_le {K V : Type} [DecidableEq K] (d : PyDict K V) (k : K) (v : V) :
    dictSize (dictInsert d k v) ≤ dictSize d + 1 := by
  induction d with
  | nil => simp [dictInsert, dictSize]
  | cons q t ih =>
    obtain ⟨a, b⟩ := q
    by_cases hak : a = k
    · simp [dictInsert, hak, dictSize]
    · simp only [dictInsert, if_neg hak, dictSize, List.length_cons] at ih ⊢
      omega

theorem dictLookup_eq_none {K V : Type} [DecidableEq K] {d : PyDict K V} {k : K}
    (h : k ∉ dictKeys d) : dictLookup d k = none := by
  induction d with
  | nil => rfl
  | cons q t ih =>
    obtain ⟨a, b⟩ := q
    simp only [dictKeys, List.map_cons, List.mem_cons, not_or] at h
    simp [dictLookup, Ne.symm h.1, ih h.2]

theorem mem_keys_of_dictLookup {K V : Type} [DecidableEq K] {d : PyDict K V} {k : K}
    {v : V} (h : dictLookup d k = some v) : k ∈ dictKeys d := by
  by_contra hmem
  rw [dictLookup_eq_none hmem] at h
  exact Option.noConfusion h

theorem dictLookup_update_of_none {K V : Type} [DecidableEq K] (d : PyDict K V)
    {c : PyDict K V} {k : K} (hc : dictLookup c k = none) :
    dictLookup (dictUpdate d c) k = dictLookup d k := by
  induction c generalizing d with
  | nil => rfl
  | cons p t ih =>
    obtain ⟨a, b⟩ := p
    simp only [dictLookup] at hc
    by_cases hak : a = k
    · simp [hak] at hc
    · rw [if_neg hak] at hc
      show dictLookup (dictUpdate (dictInsert d a b) t) k = dictLookup d k
      rw [ih _ hc, dictLookup_insert, if_neg hak]

theorem dictLookup_update_of_some {K V : Type} [DecidableEq K] (d : PyDict K V)
    {c : PyDict K V} {k : K} {v : V} (hnd : (dictKeys c).Nodup)
    (hc : dictLookup c k = some v) : dictLookup (dictUpdate d c) k = some v := by
  induction c generalizing d with
  | nil => exact Option.noConfusion hc
  | cons p t ih =>
    obtain ⟨a, b⟩ := p
    simp only [dictKeys, List.map_cons, List.nodup_cons] at hnd
    simp only [dictLookup] at hc
    show dictLookup (dictUpdate (dictInsert d a b) t) k = some v
    by_cases hak : a = k
    · rw [if_pos hak] at hc
      have htk : dictLookup t k = none := by
        apply dictLookup_eq_none
        rw [← hak]
        simpa [dictKeys] using hnd.1
      rw [dictLookup_update_of_none _ htk, dictLookup_insert, if_pos hak]
      exact hc
    · rw [if_neg hak] at hc
      exact ih _ hnd.2 hc

theorem keyConsistent_dictInsert {d : RepoDict} (hd : KeyConsistent d) {k : String}
    {v : Row} (hv : v.1 = k) : KeyConsistent (dictInsert d k v) := by
  intro p hp
  rcases mem_dictInsert hp with h | h
  · rw [h]
    exact hv
  · exact hd p h

theorem keyConsistent_addNode {d : RepoDict} (hd : KeyConsistent d)
    (n : Option NodeData) : KeyConsistent (addNode d n) := by
  cases n with
  | none => exact hd
  | some node =>
    cases hid : node.id with
    | none => simpa [addNode, hid] using hd
    | some repoId =>
      simp only [addNode, hid]
      exact keyConsistent_dictInsert hd rfl

theorem nodupKeys_addNode {d : RepoDict} (hd : (dictKeys d).Nodup)
    (n : Option NodeData) : (dictKeys (addNode d n)).Nodup := by
  cases n with
  | none => exact hd
  | some node =>
    cases hid : node.id with
    | none => simpa [addNode, hid] using hd
    | some repoId =>
      simp only [addNode, hid]
      exact dictKeys_insert_nodup hd _ _

theorem dictSize_addNode_le (d : RepoDict) (n : Option NodeData) :
    dictSize (addNode d n) ≤ dictSize d + 1 := by
  cases n with
  | none => simp [addNode]
  | some node =>
    cases hid : node.id with
    | none => simp [addNode, hid]
    | some repoId =>
      simp only [addNode, hid]
      exact dictSize_insert_le _ _ _

theorem keyConsistent_addNodes {d : RepoDict} (hd : KeyConsistent d)
    (ns : List (Option NodeData)) : KeyConsistent (addNodes d ns) := by
  induction ns generalizing d with
  | nil => exact hd
  | cons n t ih =>
    simp only [addNodes, List.foldl_cons] at ih ⊢
    exact ih (keyConsistent_addNode hd n)

theorem nodupKeys_addNodes {d : RepoDict} (hd : (dictKeys d).Nodup)
    (ns : List (Option NodeData)) : (dictKeys (addNodes d ns)).Nodup := by
  induction ns generalizing d with
  | nil => exact hd
  | cons n t ih =>
    simp only [addNodes, List.foldl_cons] at ih ⊢
    exact ih (nodupKeys_addNode hd n)

theorem dictSize_addNodes_le (d : RepoDict) (ns : List (Option NodeData)) :
    dictSize (addNodes d ns) ≤ dictSize d + ns.length := by
  induction ns generalizing d with
  | nil => simp [addNodes]
  | cons n t ih =>
    simp only [addNodes, List.foldl_cons] at ih ⊢
    calc dictSize (List.foldl addNode (addNode d n) t)
        ≤ dictSize (addNode d n) + t.length := ih (addNode d n)
      _ ≤ dictSize d + 1 + t.length := by
          have := dictSize_addNode_le d n
          omega
      _ = dictSize d + (n :: t).length := by simp [List.length_cons]; omega

theorem fetchGo_repos_inv (limit : Nat) (P : RepoDict → Prop)
    (hstep : ∀ d ns, P d → P (addNodes d ns)) :
    ∀ (outs : List Outcome) (repos : RepoDict) (hn : Bool) (cur : Option String)
      (rs : Bool), P repos → P (fetchGo limit outs repos hn cur rs).repos := by
  intro outs
  induction outs with
  | nil =>
    intro repos hn cur rs hP
    simp only [fetchGo]
    split
    · exact hP
    · exact hP
  | cons o rest ih =>
    intro repos hn cur rs hP
    cases o with
    | transient =>
      simp only [fetchGo]
      split
      · simpa using ih repos hn cur rs hP
      · exact hP
    | ok resp =>
      simp only [fetchGo]
      split
      · by_cases he : resp.errors.isSome
        · simpa [he] using hP
        · simp only [he, Bool.false_eq_true, if_false]
          cases hs : resp.search with
          | none => simpa using hP
          | some sp =>
            cases hpi : sp.pageInfo with
            | none =>
              simp only [hpi]
              exact hstep _ _ hP
            | some pi =>
              simp only [hpi]
              exact ih _ _ _ _ (hstep _ _ hP)
      · exact hP

theorem fetchGo_size_le (limit P : Nat) :
    ∀ (outs : List Outcome) (repos : RepoDict) (hn : Bool) (cur : Option String)
      (rs : Bool), (∀ r, Outcome.ok r ∈ outs → nodeCount r ≤ P) →
      dictSize (fetchGo limit outs repos hn cur rs).repos ≤
        max (dictSize repos) (limit - 1 + P) := by
  intro outs
  induction outs with
  | nil =>
    intro repos hn cur rs hout
    simp only [fetchGo]
    split
    · exact le_max_left _ _
    · exact le_max_left _ _
  | cons o rest ih =>
    intro repos hn cur rs hout
    cases o with
    | transient =>
      simp only [fetchGo]
      split
      · simpa using ih repos hn cur rs fun r hr => hout r (List.mem_cons_of_mem _ hr)
      · exact le_max_left _ _
    | ok resp =>
      simp only [fetchGo]
      split
      · next hcond =>
        by_cases he : resp.errors.isSome
        · simp only [he, if_true]
          exact le_max_left (dictSize repos) (limit - 1 + P)
        · simp only [he, Bool.false_eq_true, if_false]
          cases hs : resp.search with
          | none =>
            simp only [hs]
            exact le_max_left (dictSize repos) (limit - 1 + P)
          | some sp =>
            have hsize2 : dictSize (addNodes repos (sp.nodes.getD [])) ≤ limit - 1 + P := by
              have h1 := dictSize_addNodes_le repos (sp.nodes.getD [])
              have h2 : nodeCount resp ≤ P := hout resp (List.mem_cons_self _ _)
              have h3 : (sp.nodes.getD []).length = nodeCount resp := by
                simp [nodeCount, hs]
              have h4 : dictSize repos < limit := hcond.2
              omega
            cases hpi : sp.pageInfo with
            | none =>
              simp only [hpi]
              exact le_trans hsize2 (le_max_right _ _)
            | some pi =>
              simp only [hpi]
              have hrec := ih (addNodes repos (sp.nodes.getD [])) pi.hasNextPage
                pi.endCursor true fun r hr => hout r (List.mem_cons_of_mem _ hr)
              refine le_trans hrec (max_le ?_ ?_)
              · exact le_trans hsize2 (le_max_right _ _)
              · exact le_max_right _ _
      · exact le_max_left _ _

theorem keyConsistent_dictUpdate :
    ∀ (c d : RepoDict), KeyConsistent d → KeyConsistent c →
      KeyConsistent (dictUpdate d c) := by
  intro c
  induction c with
  | nil => intro d hd _; exact hd
  | cons p t ih =>
    intro d hd hc
    obtain ⟨a, b⟩ := p
    have hb : b.1 = a := hc (a, b) (List.mem_cons_self _ _)
    have hc2 : KeyConsistent t := fun q hq => hc q (List.mem_cons_of_mem _ hq)
    exact ih _ (keyConsistent_dictInsert hd hb) hc2

theorem nodupKeys_dictUpdate {K V : Type} [DecidableEq K] :
    ∀ (c d : PyDict K V), (dictKeys d).Nodup → (dictKeys (dictUpdate d c)).Nodup := by
  intro c
  induction c with
  | nil => intro d hd; exact hd
  | cons p t ih =>
    intro d hd
    obtain ⟨a, b⟩ := p
    exact ih _ (dictKeys_insert_nodup hd a b)

theorem fetch_repos_keyConsistent (outs : List Outcome) (limit : Nat) :
    KeyConsistent (fetch_repos_for_query outs limit).repos ∧
    (dictKeys (fetch_repos_for_query outs limit).repos).Nodup := by
  exact fetchGo_repos_inv limit (fun d => KeyConsistent d ∧ (dictKeys d).Nodup)
    (fun d ns h => ⟨keyConsistent_addNodes h.1 ns, nodupKeys_addNodes h.2 ns⟩)
    outs [] true none false ⟨fun p hp => absurd hp (List.not_mem_nil p), List.nodup_nil⟩

theorem mainState_some_inv (target : Nat) :
    ∀ (streams : List (List Outcome)) (acc acc2 : RepoDict),
      KeyConsistent acc → (dictKeys acc).Nodup →
      mainState target streams acc = some acc2 →
      KeyConsistent acc2 ∧ (dictKeys acc2).Nodup := by
  intro streams
  induction streams with
  | nil =>
    intro acc acc2 hkc hnd h
    simp only [mainState, Option.some.injEq] at h
    rw [← h]
    exact ⟨hkc, hnd⟩
  | cons s rest ih =>
    intro acc acc2 hkc hnd h
    simp only [mainState] at h
    split at h
    · exact absurd h (by simp)
    · exact absurd h (by simp)
    · have hrep := fetch_repos_keyConsistent s 1000
      have hkc2 : KeyConsistent (dictUpdate acc (fetch_repos_for_query s 1000).repos) :=
        keyConsistent_dictUpdate _ _ hkc hrep.1
      have hnd2 : (dictKeys (dictUpdate acc (fetch_repos_for_query s 1000).repos)).Nodup :=
        nodupKeys_dictUpdate _ _ hnd
      split at h
      · rw [← Option.some.inj h]
        exact ⟨hkc2, hnd2⟩
      · exact ih _ _ hkc2 hnd2 h

theorem dictValues_map_fst {d : RepoDict} (hd : KeyConsistent d) :
    (dictValues d).map (fun r => r.1) = dictKeys d := by
  simp only [dictValues, dictKeys, List.map_map]
  exact List.map_congr_left fun p hp => hd p hp

theorem truncateFinal_front (target : Nat) (acc : RepoDict) :
    truncateFinal target acc <+: dictValues acc := by
  unfold truncateFinal
  split
  · exact List.take_prefix _ _
  · exact List.prefix_refl _

theorem truncateFinal_length_le (target : Nat) (acc : RepoDict) :
    (truncateFinal target acc).length ≤ target := by
  unfold truncateFinal
  split
  · next h =>
    simp only [List.length_take]
    exact min_le_left _ _
  · next h => omega

theorem truncateFinal_map_fst_nodup {target : Nat} {acc : RepoDict}
    (hkc : KeyConsistent acc) (hnd : (dictKeys acc).Nodup) :
    ((truncateFinal target acc).map (fun r => r.1)).Nodup := by
  have hsub : List.Sublist (truncateFinal target acc) (dictValues acc) :=
    (truncateFinal_front target acc).sublist
  have hmap : List.Sublist ((truncateFinal target acc).map (fun r => r.1))
      ((dictValues acc).map (fun r => r.1)) := hsub.map _
  rw [dictValues_map_fst hkc] at hmap
  exact hnd.sublist hmap

theorem chunkLoop_closed (n : Nat) :
    ∀ (s : Int) (acc : List (Int × Int)),
      chunkLoop n s acc =
        acc ++ (List.range n).map
          (fun (i : Nat) => (s - 31 - 31 * (i : Int), s - 1 - 31 * (i : Int))) := by
  induction n with
  | zero => intro s acc; simp [chunkLoop]
  | succ n ih =>
    intro s acc
    rw [chunkLoop, ih, List.range_succ_eq_map, List.append_assoc]
    congr 1
    simp only [List.singleton_append, List.map_cons, List.map_map]
    congr 1
    · simp only [Nat.cast_zero, Prod.mk.injEq]
      constructor <;> ring
    · apply List.map_congr_left
      intro i _
      simp only [Function.comp_apply, Prod.mk.injEq]
      push_cast
      constructor <;> ring

theorem query_chunks_closed (t : Int) :
    query_chunks t = (List.range 120).map
      (fun (i : Nat) => (t - 31 - 31 * (i : Int), t - 1 - 31 * (i : Int))) := by
  unfold query_chunks
  rw [chunkLoop_closed]
  simp

theorem query_chunks_length (t : Int) : (query_chunks t).length = 120 := by
  rw [query_chunks_closed]
  simp

theorem windowAt_closed (t : Int) {i : Nat} (h : i < 120) :
    windowAt t i = (t - 31 - 31 * (i : Int), t - 1 - 31 * (i : Int)) := by
  unfold windowAt
  rw [query_chunks_closed]
  simp [List.getD_eq_getElem?_getD, List.getElem?_map, List.getElem?_range h]

theorem toBatchesGo_foldl (now : Int) :
    ∀ (fuel : Nat) (l : List Row), l.length ≤ fuel → ∀ (db : DB),
      (toBatchesGo fuel l).foldl (fun d b => applyBatch d b now) db = upsertAll db l now := by
  intro fuel
  induction fuel with
  | zero =>
    intro l hl db
    cases l with
    | nil => simp [toBatchesGo, upsertAll]
    | cons r t => simp at hl
  | succ fuel ih =>
    intro l hl db
    cases l with
    | nil => simp [toBatchesGo, upsertAll]
    | cons r t =>
      simp only [toBatchesGo, List.foldl_cons]
      rw [ih ((r :: t).drop 500) (by simp only [List.length_drop]; omega)]
      simp only [applyBatch, upsertAll]
      rw [← List.foldl_append, List.take_append_drop]

theorem toBatches_foldl (now : Int) (l : List Row) (db : DB) :
    (toBatches l).foldl (fun d b => applyBatch d b now) db = upsertAll db l now :=
  toBatchesGo_foldl now l.length l le_rfl db

theorem toBatchesGo_length_le :
    ∀ (fuel : Nat) (l b : List Row), b ∈ toBatchesGo fuel l → b.length ≤ 500 := by
  intro fuel
  induction fuel with
  | zero =>
    intro l b hb
    cases l <;> simp [toBatchesGo] at hb
  | succ fuel ih =>
    intro l b hb
    cases l with
    | nil => simp [toBatchesGo] at hb
    | cons r t =>
      simp only [toBatchesGo, List.mem_cons] at hb
      rcases hb with hb | hb
      · rw [hb]
        simp only [List.length_take]
        exact min_le_left _ _
      · exact ih _ _ hb

theorem toBatches_length_le (l b : List Row) (hb : b ∈ toBatches l) : b.length ≤ 500 :=
  toBatchesGo_length_le l.length l b hb

theorem execValues_none (now : Int) :
    ∀ (batches : List (List Row)) (pending : DB) (idx : Nat),
      execValues now none pending batches idx =
        (batches.foldl (fun d b => applyBatch d b now) pending, true) := by
  intro batches
  induction batches with
  | nil => intro pending idx; rfl
  | cons b rest ih =>
    intro pending idx
    simp only [execValues, List.foldl_cons]
    rw [if_neg (by simp)]
    exact ih _ _

theorem execValues_some_ge (now : Int) (i : Nat) :
    ∀ (batches : List (List Row)) (pending : DB) (idx : Nat),
      idx + batches.length ≤ i →
      execValues now (some i) pending batches idx =
        (batches.foldl (fun d b => applyBatch d b now) pending, true) := by
  intro batches
  induction batches with
  | nil => intro pending idx _; rfl
  | cons b rest ih =>
    intro pending idx hge
    simp only [List.length_cons] at hge
    simp only [execValues, List.foldl_cons]
    rw [if_neg (by simp; omega)]
    exact ih _ _ (by omega)

theorem execValues_some_lt (now : Int) (i : Nat) :
    ∀ (batches : List (List Row)) (pending : DB) (idx : Nat),
      idx ≤ i → i < idx + batches.length →
      (execValues now (some i) pending batches idx).2 = false := by
  intro batches
  induction batches with
  | nil =>
    intro pending idx h1 h2
    simp only [List.length_nil] at h2
    omega
  | cons b rest ih =>
    intro pending idx h1 h2
    simp only [List.length_cons] at h2
    simp only [execValues]
    by_cases hii : i = idx
    · rw [if_pos (by rw [hii])]
    · rw [if_neg (by simp [hii])]
      exact ih _ _ (by omega) (by omega)

theorem store_in_db_commit (db : DB) (rows : List Row) (now : Int) :
    store_in_db db rows now none = upsertAll db rows now := by
  by_cases hr : rows.isEmpty
  · have : rows = [] := List.isEmpty_iff.mp hr
    subst this
    simp [store_in_db, upsertAll]
  · simp only [store_in_db, if_neg hr]
    rw [execValues_none, toBatches_foldl]
    simp

theorem store_in_db_fail (db : DB) (rows : List Row) (now : Int) (i : Nat)
    (h : i < (toBatches rows).length) : store_in_db db rows now (some i) = db := by
  by_cases hr : rows.isEmpty
  · simp [store_in_db, hr]
  · simp only [store_in_db, if_neg hr]
    have hf := execValues_some_lt now i (toBatches rows) db 0 (Nat.zero_le i)
      (by simpa using h)
    rw [hf]
    simp

theorem store_in_db_fail_late (db : DB) (rows : List Row) (now : Int) (i : Nat)
    (h : (toBatches rows).length ≤ i) :
    store_in_db db rows now (some i) = upsertAll db rows now := by
  by_cases hr : rows.isEmpty
  · have : rows = [] := List.isEmpty_iff.mp hr
    subst this
    simp [store_in_db, upsertAll]
  · simp only [store_in_db, if_neg hr]
    rw [execValues_some_ge now i _ db 0 (by simpa using h), toBatches_foldl]
    simp

theorem upsertRow_existing {db : DB} {id : String} {n0 : Option String} {s0 : Option Int}
    {t0 : Int} (h : dictLookup db id = some (n0, s0, t0)) (name : Option String)
    (stars : Option Int) (now : Int) :
    dictLookup (upsertRow db (id, name, stars) now) id = some (n0, stars, now) ∧
    dictKeys (upsertRow db (id, name, stars) now) = dictKeys db := by
  unfold upsertRow
  simp only [h]
  constructor
  · rw [dictLookup_insert, if_pos rfl]
  · rw [dictKeys_insert, if_pos (mem_keys_of_dictLookup h)]

/-- Claim C1 counterexample: on `c1outs`, page 2 carries a top-level error
list while still holding usable data with a valid node `c` and a next
page.  The claim says the fetch retains node `c`, logs a warning, and
continues pagination (reaching node `d` on page 3).  The code instead hits
`if 'errors' in data: break`, so the returned mapping holds only the two
nodes of page 1: node `c` is dropped and page 3 is never requested. -/
theorem c1_errors_page_counterexample :
    fetch_repos_for_query c1outs 1000 =
      ⟨[("a", ("a", some "o/a", some 1)), ("b", ("b", some "o/b", some 2))],
        FetchEnd.finished, 0⟩ ∧
    dictLookup (fetch_repos_for_query c1outs 1000).repos "c" = none ∧
    dictLookup (fetch_repos_for_query c1outs 1000).repos "d" = none := by
  decide

/-- Claim C1 (corrected): a page response whose body contains a top-level
error list makes `fetch_repos_for_query` print the errors and `break` out
of the pagination loop for the chunk, WITHOUT processing that page's
nodes; the records collected from earlier pages are retained and returned
(the function returns normally, given that an earlier page completed and
assigned the local `remaining`). -/
theorem c1_errors_stop_chunk (resp : Response) (rest : List Outcome) (limit : Nat)
    (repos : RepoDict) (cur : Option String) (he : resp.errors.isSome = true)
    (hsize : dictSize repos < limit) :
    fetchGo limit (Outcome.ok resp :: rest) repos true cur true =
      ⟨repos, FetchEnd.finished, 0⟩ := by
  simp only [fetchGo]
  rw [if_pos ⟨trivial, hsize⟩, if_pos he]
  simp

/-- Witness for `c1_errors_stop_chunk` at a concrete error envelope and a
concrete nonempty dictionary of previously collected records. -/
theorem c1_errors_stop_chunk_witness :
    (Response.errors ⟨some ["RATE_LIMITED"], none⟩).isSome = true ∧
    dictSize demoAcc < 1000 ∧
    fetchGo 1000 [Outcome.ok ⟨some ["RATE_LIMITED"], none⟩] demoAcc true (some "cur") true =
      ⟨demoAcc, FetchEnd.finished, 0⟩ :=
  ⟨by decide, by decide,
    c1_errors_stop_chunk ⟨some ["RATE_LIMITED"], none⟩ [] 1000 demoAcc (some "cur")
      (by decide) (by decide)⟩

/-- Claim C2 counterexample: with `limit_per_query = 2`, the source
`c2outs` offers one unique identity on page 1 and two more on page 2.  The
loop guard `len(repos_dict) < limit_per_query` passes with 1 collected, so
page 2 is fetched whole and the returned mapping has 3 unique identities,
exceeding the cap. -/
theorem c2_cap_overflow_counterexample :
    dictSize (fetch_repos_for_query c2outs 2).repos = 3 ∧
    ¬ dictSize (fetch_repos_for_query c2outs 2).repos ≤ 2 := by
  decide

/-- Claim C2 (corrected): the cap is only checked before each page fetch,
so the returned mapping can exceed `limit_per_query` by up to one page's
worth of new identities: when every page of the source holds at most `P`
result nodes, the result holds at most `limit_per_query - 1 + P` unique
identities (the crawler's query requests pages of 100 nodes). -/
theorem c2_cap_bound (outs : List Outcome) (limit P : Nat)
    (h : ∀ r, Outcome.ok r ∈ outs → nodeCount r ≤ P) :
    dictSize (fetch_repos_for_query outs limit).repos ≤ limit - 1 + P := by
  have hb := fetchGo_size_le limit P outs [] true none false h
  simpa [fetch_repos_for_query, dictSize] using hb

/-- Witness for `c2_cap_bound` on the concrete source `c2outs`, whose
pages hold at most 2 nodes. -/
theorem c2_cap_bound_witness :
    (∀ r, Outcome.ok r ∈ c2outs → nodeCount r ≤ 2) ∧
    dictSize (fetch_repos_for_query c2outs 1000).repos ≤ 1000 - 1 + 2 := by
  have hall : ∀ r, Outcome.ok r ∈ c2outs → nodeCount r ≤ 2 := by
    intro r hr
    simp only [c2outs, List.mem_cons, List.not_mem_nil, or_false] at hr
    rcases hr with h | h <;> (injection h with h2; subst h2; decide)
  exact ⟨hall, c2_cap_bound c2outs 1000 2 hall⟩

/-- Claim C3 counterexample: the stored row for identity `a` has display
name `old`; the new batch carries name `new`.  The claim says the upsert
overwrites the stored name with `new`; the SQL `ON CONFLICT (id) DO UPDATE
SET stargazer_count = ..., crawled_at = NOW()` never assigns `name`, so
the stored name stays `old` while the score and timestamp are refreshed. -/
theorem c3_name_not_overwritten_counterexample :
    store_in_db [("a", (some "old", some 1, 0))] [("a", some "new", some 5)] 99 none =
      [("a", (some "old", some 5, 99))] ∧
    dictLookup (store_in_db [("a", (some "old", some 1, 0))]
        [("a", some "new", some 5)] 99 none) "a" ≠ some (some "new", some 5, 99) := by
  decide

/-- Claim C3 (corrected): for a record whose identity already exists in
the store, the bulk upsert refreshes the popularity score and the
last-observed timestamp but leaves the stored display name unchanged (the
conflict clause does not set `name`); the identity and the table's key set
stay untouched. -/
theorem c3_conflict_keeps_name :
    (∀ (db : DB) (row : Row) (now : Int) (n0 : Option String) (s0 : Option Int) (t0 : Int),
        dictLookup db row.1 = some (n0, s0, t0) →
        dictLookup (upsertRow db row now) row.1 = some (n0, row.2.2, now)) ∧
    (∀ (db : DB) (id : String) (name : Option String) (stars : Option Int) (now : Int)
        (n0 : Option String) (s0 : Option Int) (t0 : Int),
        dictLookup db id = some (n0, s0, t0) →
        dictLookup (store_in_db db [(id, name, stars)] now none) id =
          some (n0, stars, now) ∧
        dictKeys (store_in_db db [(id, name, stars)] now none) = dictKeys db) := by
  constructor
  · intro db row now n0 s0 t0 h
    obtain ⟨id, name, stars⟩ := row
    exact (upsertRow_existing h name stars now).1
  · intro db id name stars now n0 s0 t0 h
    rw [store_in_db_commit]
    have hsingle : upsertAll db [(id, name, stars)] now = upsertRow db (id, name, stars) now := by
      simp [upsertAll]
    rw [hsingle]
    exact upsertRow_existing h name stars now

/-- Witness for `c3_conflict_keeps_name` at a concrete one-row store and a
conflicting batch row. -/
theorem c3_conflict_keeps_name_witness :
    dictLookup ([("a", (some "old", some 1, 0))] : DB) "a" = some (some "old", some 1, 0) ∧
    dictLookup (store_in_db [("a", (some "old", some 1, 0))]
        [("a", some "new", some 5)] 99 none) "a" = some (some "old", some 5, 99) :=
  ⟨by decide,
    (c3_conflict_keeps_name.2 [("a", (some "old", some 1, 0))] "a" (some "new") (some 5)
      99 (some "old") (some 1) 0 (by decide)).1⟩

/-- Claim C4 counterexample: on `c4outs`, page 1 succeeds with one record
and page 2 has no top-level error list and no usable `data`/`search`
container.  The claim says fetching stops for the chunk only, with the
function returning normally and keeping page 1's record.  The code instead
evaluates `data['data']['search']` unguarded, raising an uncaught
`KeyError`: the function does not return (modelled as `.exc`) and the
whole run aborts. -/
theorem c4_missing_data_crashes_counterexample :
    (fetch_repos_for_query c4outs 1000).fin = FetchEnd.exc ∧
    (fetch_repos_for_query c4outs 1000).fin ≠ FetchEnd.finished := by
  decide

/-- Claim C4 (corrected): a response with no top-level error list and no
usable `data`/`search` container makes `fetch_repos_for_query` raise an
uncaught exception (`KeyError`/`TypeError` at `data['data']['search']`),
aborting the entire run, not just the chunk; the records collected from
earlier pages of the chunk are lost with the raise.  (Only a response
carrying a top-level error list stops just the chunk, see C1.) -/
theorem c4_missing_data_raises (resp : Response) (rest : List Outcome) (limit : Nat)
    (repos : RepoDict) (cur : Option String) (rs : Bool) (he : resp.errors = none)
    (hs : resp.search = none) (hsize : dictSize repos < limit) :
    fetchGo limit (Outcome.ok resp :: rest) repos true cur rs =
      ⟨repos, FetchEnd.exc, 0⟩ := by
  simp only [fetchGo]
  rw [if_pos ⟨trivial, hsize⟩]
  simp [he, hs]

/-- Witness for `c4_missing_data_raises` at a concrete empty response body
and a nonempty dictionary of previously collected records. -/
theorem c4_missing_data_raises_witness :
    (Response.errors ⟨none, none⟩) = none ∧
    (Response.search ⟨none, none⟩) = none ∧
    dictSize demoAcc < 1000 ∧
    fetchGo 1000 [Outcome.ok ⟨none, none⟩] demoAcc true (some "cur") true =
      ⟨demoAcc, FetchEnd.exc, 0⟩ :=
  ⟨rfl, rfl, by decide,
    c4_missing_data_raises ⟨none, none⟩ [] 1000 demoAcc (some "cur") true rfl rfl
      (by decide)⟩

set_option maxRecDepth 8000 in
/-- Claim C5 counterexample: at `today = 0` (dates as integer day
numbers), the generator produces 120 windows, with window 0 equal to
`(-31, -1)` and window 1 equal to `(-62, -32)`.  The claimed relation
`window[1].start = window[0].end - 1` would require `-62 = -2`: the
windows walk backward in time, so it is window 1's END that adjoins
window 0's START, not the relation stated. -/
theorem c5_window_relation_counterexample :
    (query_chunks 0).length = 120 ∧
    (query_chunks 0).getD 0 (0, 0) = (-31, -1) ∧
    (query_chunks 0).getD 1 (0, 0) = (-62, -32) ∧
    ((query_chunks 0).getD 1 (0, 0)).1 ≠ ((query_chunks 0).getD 0 (0, 0)).2 - 1 := by
  decide

/-- Claim C5 (corrected): the generator produces exactly 120 windows that
are contiguous and never overlap, walking backward from the present: each
window's END is exactly one day before the PREVIOUS window's start
(`window[i+1].end = window[i].start - 1`), and any later-generated window
lies strictly before any earlier-generated one. -/
theorem c5_windows_contiguous (t : Int) :
    (query_chunks t).length = 120 ∧
    (∀ i : Nat, i + 1 < 120 → (windowAt t (i + 1)).2 = (windowAt t i).1 - 1) ∧
    (∀ i j : Nat, i < j → j < 120 → (windowAt t j).2 < (windowAt t i).1) := by
  refine ⟨query_chunks_length t, ?_, ?_⟩
  · intro i hi
    rw [windowAt_closed t hi, windowAt_closed t (by omega : i < 120)]
    simp only [Prod.fst, Prod.snd]
    push_cast
    ring
  · intro i j hij hj
    rw [windowAt_closed t hj, windowAt_closed t (by omega : i < 120)]
    simp only [Prod.fst, Prod.snd]
    have hc : (i : Int) < (j : Int) := by exact_mod_cast hij
    linarith

/-- Witness for `c5_windows_contiguous` at `today = 0` and windows 0, 1. -/
theorem c5_windows_contiguous_witness :
    (0 : Nat) + 1 < 120 ∧ (windowAt 0 1).2 = (windowAt 0 0).1 - 1 ∧
    (windowAt 0 1).2 < (windowAt 0 0).1 :=
  ⟨by decide, (c5_windows_contiguous 0).2.1 0 (by decide),
    (c5_windows_contiguous 0).2.2 0 1 (by decide) (by decide)⟩

/-- Claim C6 (confirmed): whenever a run reaches the persistence step with
accumulator `acc`, the final list handed to `store_in_db` is
`truncateFinal target acc`: its length never exceeds the target, and it is
a prefix of `list(acc.values())` — which the dictionary model keeps in
insertion order across chunks (a re-observed identity keeps its original,
earliest position) — so truncation keeps exactly the earliest-discovered
records. -/
theorem c6_final_list_truncation (streams : List (List Outcome)) (target : Nat)
    (acc : RepoDict) (h : runAccum streams target = some acc) :
    (truncateFinal target acc).length ≤ target ∧
    truncateFinal target acc <+: dictValues acc ∧
    runFinal streams target = some (truncateFinal target acc) := by
  refine ⟨truncateFinal_length_le target acc, truncateFinal_front target acc, ?_⟩
  simp [runFinal, h]

/-- Witness for `c6_final_list_truncation` on the concrete single-chunk
run `demoStreams`. -/
theorem c6_final_list_truncation_witness :
    runAccum demoStreams 10 = some demoAcc ∧
    ((truncateFinal 10 demoAcc).length ≤ 10 ∧
      truncateFinal 10 demoAcc <+: dictValues demoAcc ∧
      runFinal demoStreams 10 = some (truncateFinal 10 demoAcc)) :=
  ⟨by decide, c6_final_list_truncation demoStreams 10 demoAcc (by decide)⟩

/-- Claim C7 (confirmed): while the pagination loop is active, each
transport failure is answered by a 15 second sleep and a retry of the
identical request — the collected dictionary, the `has_next_page` flag and
the cursor are untouched — and this holds for ANY number `n` of
consecutive failures (there is no maximum retry count): the run continues
exactly as if the failures had not happened, with `15 * n` extra seconds
of backoff sleep and no record loss. -/
theorem c7_transient_retry (limit n : Nat) (rest : List Outcome) (repos : RepoDict)
    (cur : Option String) (rs : Bool) (hsize : dictSize repos < limit) :
    fetchGo limit (List.replicate n Outcome.transient ++ rest) repos true cur rs =
      ⟨(fetchGo limit rest repos true cur rs).repos,
        (fetchGo limit rest repos true cur rs).fin,
        15 * n + (fetchGo limit rest repos true cur rs).slept⟩ := by
  induction n with
  | zero => simp
  | succ n ih =>
    rw [List.replicate_succ, List.cons_append]
    simp only [fetchGo]
    rw [if_pos ⟨trivial, hsize⟩]
    rw [ih]
    simp only [FetchResult.mk.injEq]
    refine ⟨trivial, trivial, by ring⟩

/-- Witness for `c7_transient_retry`: two transport failures before the
single successful page of `c7rest`. -/
theorem c7_transient_retry_witness :
    dictSize ([] : RepoDict) < 1000 ∧
    fetchGo 1000 (List.replicate 2 Outcome.transient ++ c7rest) [] true none false =
      ⟨(fetchGo 1000 c7rest [] true none false).repos,
        (fetchGo 1000 c7rest [] true none false).fin,
        15 * 2 + (fetchGo 1000 c7rest [] true none false).slept⟩ :=
  ⟨by decide, c7_transient_retry 1000 2 c7rest [] none false (by decide)⟩

/-- Claim C8 (confirmed): one call to `store_in_db` executes its 500-row
sub-batches inside a single transaction committed once at the end, so the
outcome is all-or-nothing: with no persistence error the whole row list is
applied; a `psycopg2.Error` at any sub-batch leaves the committed store
exactly as it was (the caught exception skips `conn.commit()` and closing
the connection rolls back), and no retry is attempted. -/
theorem c8_store_atomic (db : DB) (rows : List Row) (now : Int) (failAt : Option Nat) :
    (store_in_db db rows now failAt = db ∨
      store_in_db db rows now failAt = upsertAll db rows now) ∧
    (failAt = none → store_in_db db rows now failAt = upsertAll db rows now) ∧
    (∀ i, failAt = some i → i < (toBatches rows).length →
      store_in_db db rows now failAt = db) ∧
    (∀ b ∈ toBatches rows, b.length ≤ 500) := by
  refine ⟨?_, ?_, ?_, ?_⟩
  · cases failAt with
    | none => exact Or.inr (store_in_db_commit db rows now)
    | some i =>
      by_cases hi : i < (toBatches rows).length
      · exact Or.inl (store_in_db_fail db rows now i hi)
      · exact Or.inr (store_in_db_fail_late db rows now i (by omega))
  · intro h
    subst h
    exact store_in_db_commit db rows now
  · intro i hfa hi
    subst hfa
    exact store_in_db_fail db rows now i hi
  · exact fun b hb => toBatches_length_le rows b hb

/-- Witness for `c8_store_atomic`: a failing first sub-batch leaves the
empty store unchanged; an error-free call applies every row. -/
theorem c8_store_atomic_witness :
    (0 < (toBatches c8rows).length ∧ store_in_db [] c8rows 5 (some 0) = []) ∧
    store_in_db [] c8rows 5 none = upsertAll [] c8rows 5 :=
  ⟨⟨by decide, (c8_store_atomic [] c8rows 5 (some 0)).2.2.1 0 rfl (by decide)⟩,
    (c8_store_atomic [] c8rows 5 none).2.1 rfl⟩

/-- Claim C9 (confirmed): merging a chunk dictionary into the accumulator
with `all_repos_dict.update(chunk_dict)` makes the later chunk win for
every identity present in both (the chunk's whole value — hence each
field — replaces the accumulator's), while identities present only in the
accumulator keep their value; the no-duplicate-keys hypothesis holds for
every chunk dictionary the fetch produces (see C10). -/
theorem c9_merge_freshness (acc chunk : RepoDict) (k : String)
    (hnd : (dictKeys chunk).Nodup) :
    (∀ v, dictLookup chunk k = some v →
      dictLookup (dictUpdate acc chunk) k = some v) ∧
    (dictLookup chunk k = none →
      dictLookup (dictUpdate acc chunk) k = dictLookup acc k) :=
  ⟨fun _ hv => dictLookup_update_of_some acc hnd hv,
    fun hnone => dictLookup_update_of_none acc hnone⟩

/-- Witness for `c9_merge_freshness`: identity `a` is in both (the chunk's
fresher value wins) and identity `b` only in the accumulator (preserved). -/
theorem c9_merge_freshness_witness :
    (dictKeys c9chunk).Nodup ∧
    dictLookup (dictUpdate c9acc c9chunk) "a" = some ("a", some "o/a", some 9) ∧
    dictLookup (dictUpdate c9acc c9chunk) "b" = dictLookup c9acc "b" :=
  ⟨by decide,
    (c9_merge_freshness c9acc c9chunk "a" (by decide)).1 ("a", some "o/a", some 9)
      (by decide),
    (c9_merge_freshness c9acc c9chunk "b" (by decide)).2 (by decide)⟩

/-- Claim C10 (confirmed, implicit invariant): every mapping returned by
`fetch_repos_for_query` is key-consistent (the value under key `k` is a
triple whose first component is `k`) with pairwise-distinct keys, the
global accumulator stays key-consistent through every merge, and the final
truncated list handed to `store_in_db` has pairwise-distinct identities in
its first components. -/
theorem c10_key_consistency :
    (∀ (outs : List Outcome) (limit : Nat),
      KeyConsistent (fetch_repos_for_query outs limit).repos ∧
      (dictKeys (fetch_repos_for_query outs limit).repos).Nodup) ∧
    (∀ (streams : List (List Outcome)) (target : Nat) (acc : RepoDict),
      runAccum streams target = some acc →
      KeyConsistent acc ∧ ((truncateFinal target acc).map (fun r => r.1)).Nodup) := by
  constructor
  · exact fetch_repos_keyConsistent
  · intro streams target acc h
    have hprops := mainState_some_inv target streams [] acc
      (fun p hp => absurd hp (List.not_mem_nil p)) List.nodup_nil h
    exact ⟨hprops.1, truncateFinal_map_fst_nodup hprops.1 hprops.2⟩

/-- Witness for `c10_key_consistency` on the concrete source `c2outs` and
the concrete run `demoStreams`. -/
theorem c10_key_consistency_witness :
    (KeyConsistent (fetch_repos_for_query c2outs 1000).repos ∧
      (dictKeys (fetch_repos_for_query c2outs 1000).repos).Nodup) ∧
    (runAccum demoStreams 10 = some demoAcc ∧ KeyConsistent demoAcc ∧
      ((truncateFinal 10 demoAcc).map (fun r => r.1)).Nodup) :=
  ⟨c10_key_consistency.1 c2outs 1000,
    ⟨by decide, c10_key_consistency.2 demoStreams 10 demoAcc (by decide)⟩⟩
